import Mathlib

/-!
# Verification of the find-vague similarity-ranking engine

This file is a shallow embedding, in Lean 4, of the core of the `find-vague`
JavaScript package (file `src/unnamed/part_001`): cosine-similarity scoring
(`calculateCosineSimilarity` inside `classify`), the comparison orchestration
(`classify`, `compareSentenceToArray`, `arrayInOrder`, `compareTwoSentences`,
`getCached`, `cachedCompareSentenceToArray`, `cachedArrayInOrder`, `getTop`)
and the bounded top-K structure `LinkedListInAlikeOrder`.

Modelling conventions:

* JavaScript numbers are modelled as exact rationals (`ℚ`).  `Math.sqrt` has
  no exact rational counterpart, so it is threaded through every definition as
  an explicit parameter `msqrt : ℚ → ℚ`; every theorem below is proved for an
  arbitrary `msqrt`, hence in particular for the square-root function.
* The loaded transformer pipeline is a black box `String → List ℚ`
  (text to embedding vector).  The module-level mutable `model` variable
  (`null` before `loadModel` succeeds) becomes an explicit parameter
  `model : Option (String → List ℚ)` passed to every operation.
* `async`/`await` and thrown exceptions are modelled with `Except JsError`.
  Each operation additionally returns the number of embedding-provider
  invocations (`await model(...)`) it performed, so that "performs no
  embedding calls" is the statement that this counter is `0`.
* JavaScript `TypeError` crashes (calling the `null` model, or reading a
  property of `null`) are modelled as `Except.error` values distinct from the
  deliberately thrown errors.  These branches are unreachable from the
  package entry points.
* The doubly-linked list `LinkedListInAlikeOrder` is modelled by the list of
  its nodes from `head` to `tail` together with `maxLength`; the `length`
  field of the source is always the number of nodes, so it is represented by
  `nodes.length`.
* `Array.prototype.sort` with the comparator `(a, b) => b.alike - a.alike` is
  a stable descending-by-`alike` sort (stability is guaranteed by the
  ECMAScript specification); every stable sort for a fixed total preorder
  yields the same list, so it is embedded as `List.insertionSort` with the
  relation `scoredGE` below.
-/

/-- A thrown JavaScript error, identified by its message. -/
structure JsError where
  msg : String
deriving DecidableEq, Repr

/-- The error thrown by `modelNotLoadedErrorMessage()` (source lines 67-69). -/
def modelNotLoadedError : JsError :=
  ⟨"Model has not been loaded, use vagueFinder.loadModel()"⟩

/-- The error thrown by `getTop` when `numberOfResults <= 0` (line 487). -/
def numberOfResultsError : JsError :=
  ⟨"numberOfResults is either 0 or less than 0"⟩

/-- The error thrown by `cachedCompareSentenceToArray` / `cachedArrayInOrder`
when a cached item lacks a usable `sentenceTwo` (lines 394-396, 444-446). -/
def invalidCacheEntryError : JsError :=
  ⟨"Each item in the cachedArray must have a sentenceTwo property"⟩

/-- Model of the `TypeError` raised when the not-loaded (`null`) model is
invoked as a function.  Unreachable from the package entry points. -/
def typeErrorModelIsNull : JsError :=
  ⟨"TypeError: model is not a function"⟩

/-- Model of the `TypeError` raised when a `null` embedding is used.
Unreachable from the package entry points. -/
def typeErrorNullEmbedding : JsError :=
  ⟨"TypeError: embedding is null"⟩

/-- A scored candidate `{ sentenceTwo, alike }`, the element shape produced by
the comparison loops (line 217 and line 507). -/
structure Scored where
  sentenceTwo : String
  alike : ℚ
deriving DecidableEq, Repr

/-- An element of the `array` argument of `compareSentenceToArray`: either a
plain string or a cached `{ sentenceTwo, embedding }` object (see the JSDoc at
line 180 and `getCached`, line 371). -/
inductive JSItem where
  | str (s : String)
  | entry (sentenceTwo : String) (embedding : List ℚ)
deriving DecidableEq, Repr

/-- `array[i].sentenceTwo ? array[i].sentenceTwo : array[i]` (line 208).
A plain string has no `sentenceTwo` property (`undefined`, falsy), so the
string itself is used.  For `entry` items the in-repo callers guarantee a
non-empty `sentenceTwo` (cached entries with a falsy `sentenceTwo` are
rejected before this code runs), so the falsy fallback to the whole object is
not modelled. -/
def itemText : JSItem → String
  | .str s => s
  | .entry t _ => t

/-- `array[i].embedding ? array[i].embedding : null` (line 211).  A plain
string has no `embedding` property; a JavaScript array (including `[]`) is
always truthy. -/
def itemEmbedding : JSItem → Option (List ℚ)
  | .str _ => none
  | .entry _ e => some e

/-- `!item.sentenceTwo` (lines 393 and 443): true when the item has no
`sentenceTwo` property (plain strings) or its value is the empty string
(falsy). -/
def lacksSentenceTwo : JSItem → Bool
  | .str _ => true
  | .entry t _ => t == ""

/-- The object returned by `classify` (lines 162-167). -/
structure ClassifyResult where
  sentenceOne : String
  sentenceTwo : String
  alike : ℚ
  embedding1Cache : List ℚ
deriving DecidableEq, Repr

/-- The object returned by `compareSentenceToArray`, `arrayInOrder`,
`cachedCompareSentenceToArray`, `cachedArrayInOrder` and `getTop`. -/
structure SentenceArrayResult where
  sentenceOne : String
  array : List Scored
deriving DecidableEq, Repr

/-- The object returned by `compareTwoSentences` (line 331). -/
structure TwoSentencesResult where
  sentenceOne : String
  sentenceTwo : String
  alike : ℚ
deriving DecidableEq, Repr

/-- The inner function `calculateCosineSimilarity` of `classify`
(lines 144-160): one pass over the indices of `embedding1` accumulating the
dot product and both squared magnitudes, then
`dotProduct / (sqrt magnitude1 * sqrt magnitude2)`.
JavaScript reads `embedding2[i]` without a bounds check; an out-of-range read
yields `undefined` and poisons the result with `NaN`, which has no rational
counterpart, so the model reads out-of-range entries as `0` (`getD`); all
claims evaluate this function only where `embedding2` is at least as long as
`embedding1`.  Division by zero is total in `ℚ` (`x / 0 = 0`) where JavaScript
yields `NaN`; no claim depends on that case. -/
def calculateCosineSimilarity (msqrt : ℚ → ℚ) (embedding1 embedding2 : List ℚ) : ℚ :=
  let acc := (List.range embedding1.length).foldl
    (fun acc i =>
      (acc.1 + embedding1.getD i 0 * embedding2.getD i 0,
       acc.2.1 + embedding1.getD i 0 * embedding1.getD i 0,
       acc.2.2 + embedding2.getD i 0 * embedding2.getD i 0))
    ((0 : ℚ), (0 : ℚ), (0 : ℚ))
  acc.1 / (msqrt acc.2.1 * msqrt acc.2.2)

/-- Resolution of one side's embedding inside `classify` (lines 115-138):
use the supplied cache when its flag is set, otherwise call the model
(`await model(text, { pooling: "mean", normalize: true })`, one provider
invocation; `Array.from(embedding.data)` is the identity in this model).
Using a `null` cache or a `null` model is a `TypeError` in JavaScript. -/
def resolveEmbedding (model : Option (String → List ℚ)) (cached : Option (List ℚ))
    (doesCacheExist : Bool) (text : String) : Except JsError (List ℚ) × ℕ :=
  if doesCacheExist then
    match cached with
    | some e => (.ok e, 0)
    | none => (.error typeErrorNullEmbedding, 0)
  else
    match model with
    | some f => (.ok (f text), 1)
    | none => (.error typeErrorModelIsNull, 0)

/-- `classify` (lines 99-168).  Guard: `if (!doesCache2Exist && !model)` throw
`ModelNotLoaded`.  Then resolve both embeddings (left side first, as in the
source) and return `{ sentenceOne, sentenceTwo, alike, embedding1Cache }`. -/
def classify (msqrt : ℚ → ℚ) (model : Option (String → List ℚ))
    (sentenceOne sentenceTwo : String)
    (embedding1Cache : Option (List ℚ)) (doesCache1Exist : Bool)
    (embedding2Cache : Option (List ℚ)) (doesCache2Exist : Bool) :
    Except JsError ClassifyResult × ℕ :=
  if !doesCache2Exist && model.isNone then
    (.error modelNotLoadedError, 0)
  else
    match resolveEmbedding model embedding1Cache doesCache1Exist sentenceOne with
    | (.error e, n1) => (.error e, n1)
    | (.ok embedding1, n1) =>
      match resolveEmbedding model embedding2Cache doesCache2Exist sentenceTwo with
      | (.error e, n2) => (.error e, n1 + n2)
      | (.ok embedding2, n2) =>
        (.ok { sentenceOne := sentenceOne, sentenceTwo := sentenceTwo,
               alike := calculateCosineSimilarity msqrt embedding1 embedding2,
               embedding1Cache := embedding1 }, n1 + n2)

/-- The loop of `compareSentenceToArray` (lines 205-218), acting on the fresh
copy of the caller's array: position `i` is classified with the left-hand
embedding cache (`cache`, populated after iteration 0) and replaced by
`{ sentenceTwo, alike }`. -/
def compareSentenceToArrayLoop (msqrt : ℚ → ℚ) (model : Option (String → List ℚ))
    (doesCache2Exist : Bool) (sentence : String) :
    List JSItem → ℕ → Option (List ℚ) → Except JsError (List Scored) × ℕ
  | [], _, _ => (.ok [], 0)
  | item :: rest, i, cache =>
    match classify msqrt model sentence (itemText item) cache (i != 0)
        (itemEmbedding item) doesCache2Exist with
    | (.error e, n) => (.error e, n)
    | (.ok r, n) =>
      let cache2 := if i = 0 then some r.embedding1Cache else cache
      match compareSentenceToArrayLoop msqrt model doesCache2Exist sentence rest (i + 1) cache2 with
      | (.error e, m) => (.error e, n + m)
      | (.ok res, m) => (.ok (⟨r.sentenceTwo, r.alike⟩ :: res), n + m)

/-- `compareSentenceToArray` (lines 194-224).  Guard
`if (!doesCache2Exist && !model)`; the body copies the caller's array
(`array = [...array]`) and runs the loop above. -/
def compareSentenceToArray (msqrt : ℚ → ℚ) (model : Option (String → List ℚ))
    (sentence : String) (array : List JSItem) (doesCache2Exist : Bool) :
    Except JsError SentenceArrayResult × ℕ :=
  if !doesCache2Exist && model.isNone then
    (.error modelNotLoadedError, 0)
  else
    match compareSentenceToArrayLoop msqrt model doesCache2Exist sentence array 0 none with
    | (.error e, n) => (.error e, n)
    | (.ok res, n) => (.ok ⟨sentence, res⟩, n)

/-- The descending-by-score ordering used by the sorts and by the ranker:
`scoredGE a b` holds when `a`'s score is at least `b`'s. -/
def scoredGE (a b : Scored) : Prop := b.alike ≤ a.alike

instance : DecidableRel scoredGE := fun a b =>
  inferInstanceAs (Decidable (b.alike ≤ a.alike))

instance : IsTotal Scored scoredGE := ⟨fun a b => le_total b.alike a.alike⟩

instance : IsTrans Scored scoredGE := ⟨fun _ _ _ hab hbc => le_trans hbc hab⟩

/-- The same ordering on bare scores. -/
def ratGE (a b : ℚ) : Prop := b ≤ a

instance : DecidableRel ratGE := fun a b => inferInstanceAs (Decidable (b ≤ a))

instance : IsTotal ℚ ratGE := ⟨fun a b => le_total b a⟩

instance : IsTrans ℚ ratGE := ⟨fun _ _ _ hab hbc => le_trans hbc hab⟩

instance : IsAntisymm ℚ ratGE := ⟨fun _ _ hab hba => le_antisymm hba hab⟩

/-- `returnedArray.sort((a, b) => b.alike - a.alike)` (lines 263 and 459):
the ECMAScript-mandated stable sort, descending by `alike`. -/
def jsSortByAlikeDescending (l : List Scored) : List Scored :=
  List.insertionSort scoredGE l

/-- `arrayInOrder` (lines 251-269): model guard, then `compareSentenceToArray`
with `doesCache2Exist = false`, then the stable descending sort. -/
def arrayInOrder (msqrt : ℚ → ℚ) (model : Option (String → List ℚ))
    (sentence : String) (array : List JSItem) :
    Except JsError SentenceArrayResult × ℕ :=
  if model.isNone then
    (.error modelNotLoadedError, 0)
  else
    match compareSentenceToArray msqrt model sentence array false with
    | (.error e, n) => (.error e, n)
    | (.ok r, n) => (.ok ⟨r.sentenceOne, jsSortByAlikeDescending r.array⟩, n)

/-- `compareTwoSentences` (lines 316-332): model guard, then `classify` with
no caches. -/
def compareTwoSentences (msqrt : ℚ → ℚ) (model : Option (String → List ℚ))
    (sentenceOne sentenceTwo : String) : Except JsError TwoSentencesResult × ℕ :=
  if model.isNone then
    (.error modelNotLoadedError, 0)
  else
    match classify msqrt model sentenceOne sentenceTwo none false none false with
    | (.error e, n) => (.error e, n)
    | (.ok r, n) => (.ok ⟨sentenceOne, sentenceTwo, r.alike⟩, n)

/-- `getCached` (lines 358-375): model guard, then one provider call per
sentence, producing `{ sentenceTwo, embedding }` entries. -/
def getCached (model : Option (String → List ℚ)) (array : List String) :
    Except JsError (List JSItem) × ℕ :=
  match model with
  | none => (.error modelNotLoadedError, 0)
  | some f => (.ok (array.map fun s => JSItem.entry s (f s)), array.length)

/-- `cachedCompareSentenceToArray` (lines 391-413): the `cachedArray.map`
whose only effect is to throw on the first item with a falsy `sentenceTwo`
(the mapped array itself is discarded), then `compareSentenceToArray` with
`doesCache2Exist = true`.  There is no model-readiness check. -/
def cachedCompareSentenceToArray (msqrt : ℚ → ℚ) (model : Option (String → List ℚ))
    (sentence : String) (cachedArray : List JSItem) :
    Except JsError SentenceArrayResult × ℕ :=
  if cachedArray.any lacksSentenceTwo then
    (.error invalidCacheEntryError, 0)
  else
    match compareSentenceToArray msqrt model sentence cachedArray true with
    | (.error e, n) => (.error e, n)
    | (.ok r, n) => (.ok ⟨r.sentenceOne, r.array⟩, n)

/-- `cachedArrayInOrder` (lines 441-465): the same validation and cached
comparison, followed by the stable descending sort.  There is no
model-readiness check. -/
def cachedArrayInOrder (msqrt : ℚ → ℚ) (model : Option (String → List ℚ))
    (sentence : String) (cachedArray : List JSItem) :
    Except JsError SentenceArrayResult × ℕ :=
  if cachedArray.any lacksSentenceTwo then
    (.error invalidCacheEntryError, 0)
  else
    match compareSentenceToArray msqrt model sentence cachedArray true with
    | (.error e, n) => (.error e, n)
    | (.ok r, n) => (.ok ⟨r.sentenceOne, jsSortByAlikeDescending r.array⟩, n)

/-- The bounded doubly-linked list of `{ sentenceTwo, alike }` nodes
(lines 520-653), modelled by its node list from `head` to `tail`. -/
structure LinkedListInAlikeOrder where
  nodes : List Scored
  maxLength : ℕ
deriving DecidableEq, Repr

/-- `new LinkedListInAlikeOrder(maxLength)` (lines 530-532). -/
def LinkedListInAlikeOrder.empty (maxLength : ℕ) : LinkedListInAlikeOrder :=
  ⟨[], maxLength⟩

/-- `getArray` (lines 552-563): walk the nodes from `head`, collecting
`{ alike, sentenceTwo }`. -/
def LinkedListInAlikeOrder.getArray (ll : LinkedListInAlikeOrder) : List Scored :=
  ll.nodes

/-- The scanning loop of `_getIndex` (lines 571-582): starting at node
position `count`, return the first position whose node is `null` or has
`alike <= alike`, capped at `maxLength`. -/
def getIndexGo (maxLength : ℕ) (alike : ℚ) : List Scored → ℕ → ℕ
  | [], count => if count < maxLength then count else maxLength
  | currentNode :: rest, count =>
    if count < maxLength then
      if currentNode.alike ≤ alike then count
      else getIndexGo maxLength alike rest (count + 1)
    else maxLength

/-- `_getIndex` (lines 571-582). -/
def LinkedListInAlikeOrder._getIndex (ll : LinkedListInAlikeOrder) (alike : ℚ) : ℕ :=
  getIndexGo ll.maxLength alike ll.nodes 0

/-- `_deleteLastNode` (lines 646-652).  The source dereferences `tail.prev`,
so it requires at least two nodes; it is only ever called through `_audit`
when `length > maxLength`, hence with at least two nodes whenever
`maxLength ≥ 1`. -/
def LinkedListInAlikeOrder._deleteLastNode (ll : LinkedListInAlikeOrder) :
    LinkedListInAlikeOrder :=
  { ll with nodes := ll.nodes.dropLast }

/-- `_audit` (lines 636-640): evict the tail when over capacity. -/
def LinkedListInAlikeOrder._audit (ll : LinkedListInAlikeOrder) : LinkedListInAlikeOrder :=
  if ll.maxLength < ll.nodes.length then ll._deleteLastNode else ll

/-- `_insertAtIndex` (lines 605-629): splice the new node in at `index`
(prepend at `0`, append at `length`, pointer surgery in between — on the list
model all three are `insertIdx`), bump `length`, then `_audit`. -/
def LinkedListInAlikeOrder._insertAtIndex (ll : LinkedListInAlikeOrder)
    (index : ℕ) (obj : Scored) : LinkedListInAlikeOrder :=
  LinkedListInAlikeOrder._audit { ll with nodes := ll.nodes.insertIdx index obj }

/-- `addNode` (lines 588-597): a first node becomes `head = tail`; otherwise
insert at `_getIndex(obj.alike)`. -/
def LinkedListInAlikeOrder.addNode (ll : LinkedListInAlikeOrder) (obj : Scored) :
    LinkedListInAlikeOrder :=
  match ll.nodes with
  | [] => LinkedListInAlikeOrder._audit { ll with nodes := [obj] }
  | _ :: _ => ll._insertAtIndex (ll._getIndex obj.alike) obj

/-- The loop of `getTop` (lines 495-508): classify each sentence against the
reference (reusing its embedding after iteration 0) and stream the scored
candidate into the ranker. -/
def getTopLoop (msqrt : ℚ → ℚ) (model : Option (String → List ℚ)) (sentence : String) :
    List String → ℕ → Option (List ℚ) → LinkedListInAlikeOrder →
    Except JsError LinkedListInAlikeOrder × ℕ
  | [], _, _, list => (.ok list, 0)
  | s :: rest, i, cache, list =>
    match classify msqrt model sentence s cache (i != 0) none false with
    | (.error e, n) => (.error e, n)
    | (.ok r, n) =>
      let cache2 := if i = 0 then some r.embedding1Cache else cache
      match getTopLoop msqrt model sentence rest (i + 1) cache2
          (list.addNode ⟨r.sentenceTwo, r.alike⟩) with
      | (res, m) => (res, n + m)

/-- `getTop` (lines 480-515): model guard, `numberOfResults <= 0` guard,
clamp `numberOfResults` to the array length, stream every candidate into a
`LinkedListInAlikeOrder` of that capacity, and return its array. -/
def getTop (msqrt : ℚ → ℚ) (model : Option (String → List ℚ))
    (sentence : String) (array : List String) (numberOfResults : ℤ) :
    Except JsError SentenceArrayResult × ℕ :=
  if model.isNone then
    (.error modelNotLoadedError, 0)
  else if numberOfResults ≤ 0 then
    (.error numberOfResultsError, 0)
  else
    let clamped := min numberOfResults.toNat array.length
    match getTopLoop msqrt model sentence array 0 none (.empty clamped) with
    | (.error e, n) => (.error e, n)
    | (.ok list, n) => (.ok ⟨sentence, list.getArray⟩, n)

/-! ## Helper lemmas -/

/-- A fold accumulating three independent sums componentwise equals the three
`List.sum`s. -/
theorem foldl_triple_sum (f g h : ℕ → ℚ) (l : List ℕ) (a b c : ℚ) :
    l.foldl (fun acc i => (acc.1 + f i, acc.2.1 + g i, acc.2.2 + h i)) (a, b, c) =
      (a + (l.map f).sum, b + (l.map g).sum, c + (l.map h).sum) := by
  induction l generalizing a b c with
  | nil => simp
  | cons x xs ih => simp [ih, add_assoc]

/-- `calculateCosineSimilarity` written with explicit sums. -/
theorem calculateCosineSimilarity_eq_sums (msqrt : ℚ → ℚ) (e1 e2 : List ℚ) :
    calculateCosineSimilarity msqrt e1 e2 =
      ((List.range e1.length).map fun i => e1.getD i 0 * e2.getD i 0).sum /
        (msqrt ((List.range e1.length).map fun i => e1.getD i 0 * e1.getD i 0).sum *
         msqrt ((List.range e1.length).map fun i => e2.getD i 0 * e2.getD i 0).sum) := by
  have := foldl_triple_sum (fun i => e1.getD i 0 * e2.getD i 0)
    (fun i => e1.getD i 0 * e1.getD i 0) (fun i => e2.getD i 0 * e2.getD i 0)
    (List.range e1.length) 0 0 0
  simp only [calculateCosineSimilarity, this, zero_add]

/-! ## Claims -/

/-- C9: the cosine-similarity computation is symmetric: for embedding vectors
of equal length, `calculateCosineSimilarity` gives the same score with its
arguments swapped (for every square-root function `msqrt`). -/
theorem calculateCosineSimilarity_symm (msqrt : ℚ → ℚ) (a b : List ℚ)
    (hlen : a.length = b.length) :
    calculateCosineSimilarity msqrt a b = calculateCosineSimilarity msqrt b a := by
  rw [calculateCosineSimilarity_eq_sums, calculateCosineSimilarity_eq_sums, ← hlen]
  have hdot : ((List.range a.length).map fun i => a.getD i 0 * b.getD i 0).sum =
      ((List.range a.length).map fun i => b.getD i 0 * a.getD i 0).sum := by
    refine congrArg List.sum (List.map_congr_left fun i _ => mul_comm _ _)
  rw [hdot, mul_comm (msqrt _) (msqrt _)]

/-- C9 witness: the symmetry theorem applied at the concrete pair
`[1, 2]`, `[3, 4]` with `msqrt = id`. -/
theorem calculateCosineSimilarity_symm_witness :
    ([(1 : ℚ), 2].length = [(3 : ℚ), 4].length) ∧
      calculateCosineSimilarity id [(1 : ℚ), 2] [(3 : ℚ), 4] =
        calculateCosineSimilarity id [(3 : ℚ), 4] [(1 : ℚ), 2] :=
  ⟨by decide, calculateCosineSimilarity_symm id [1, 2] [3, 4] (by decide)⟩

/-- C1 counterexample: `cachedCompareSentenceToArray` invoked while the model
is not loaded does not fail with the `ModelNotLoaded` error — with an empty
cached array it returns a successful result (the source, lines 391-413,
performs no model-readiness check at all). -/
theorem cachedCompareSentenceToArray_no_model_check :
    cachedCompareSentenceToArray id none "x" [] = (.ok ⟨"x", []⟩, 0) := rfl

/-- C1 as amended: with the model not loaded, `compareTwoSentences`,
`arrayInOrder`, `getCached` and `getTop` fail with the `ModelNotLoaded` error
and perform no embedding-provider calls; `compareSentenceToArray` does so
exactly when `doesCache2Exist` is `false`; `cachedCompareSentenceToArray` and
`cachedArrayInOrder` perform no model-readiness check (on an empty cached
array they return successfully instead of failing). -/
theorem model_gating_per_operation (msqrt : ℚ → ℚ) (a b s : String)
    (arr : List JSItem) (items : List String) (k : ℤ) :
    compareTwoSentences msqrt none a b = (.error modelNotLoadedError, 0) ∧
    compareSentenceToArray msqrt none s arr false = (.error modelNotLoadedError, 0) ∧
    arrayInOrder msqrt none s arr = (.error modelNotLoadedError, 0) ∧
    getCached none items = (.error modelNotLoadedError, 0) ∧
    getTop msqrt none s items k = (.error modelNotLoadedError, 0) ∧
    cachedCompareSentenceToArray msqrt none s [] = (.ok ⟨s, []⟩, 0) ∧
    cachedArrayInOrder msqrt none s [] = (.ok ⟨s, []⟩, 0) :=
  ⟨rfl, rfl, rfl, rfl, rfl, rfl, rfl⟩

/-- C8: `cachedCompareSentenceToArray` on a cached array containing an entry
with a missing (or falsy) `sentenceTwo` identifier fails with the
`InvalidCacheEntry` error and performs no embedding-provider call — hence no
similarity score is computed for any entry. -/
theorem cachedCompareSentenceToArray_invalid_entry (msqrt : ℚ → ℚ)
    (model : Option (String → List ℚ)) (sentence : String) (cachedArray : List JSItem)
    (h : ∃ item ∈ cachedArray, lacksSentenceTwo item) :
    cachedCompareSentenceToArray msqrt model sentence cachedArray =
      (.error invalidCacheEntryError, 0) := by
  have hany : cachedArray.any lacksSentenceTwo = true := List.any_eq_true.mpr h
  simp [cachedCompareSentenceToArray, hany]

/-- C8 witness: a cached array whose second entry is a plain string (no
`sentenceTwo` property) is rejected. -/
theorem cachedCompareSentenceToArray_invalid_entry_witness :
    (∃ item ∈ [JSItem.entry "good" [1], JSItem.str "bad"], lacksSentenceTwo item) ∧
      cachedCompareSentenceToArray id (some fun _ => [1]) "s"
          [JSItem.entry "good" [1], JSItem.str "bad"] =
        (.error invalidCacheEntryError, 0) :=
  ⟨by decide, cachedCompareSentenceToArray_invalid_entry id (some fun _ => [1]) "s" _ (by decide)⟩

/-- C10: `getTop` on an empty candidate array with a loaded model and any
requested count `k ≥ 1` returns the reference sentence with an empty result
array and performs no embedding-provider call (the capacity is clamped to `0`
and the loop body never runs). -/
theorem getTop_empty_array (msqrt : ℚ → ℚ) (f : String → List ℚ) (sentence : String)
    (k : ℤ) (hk : 0 < k) :
    getTop msqrt (some f) sentence [] k = (.ok ⟨sentence, []⟩, 0) := by
  simp [getTop, getTopLoop, not_le.mpr hk, LinkedListInAlikeOrder.empty,
    LinkedListInAlikeOrder.getArray]

/-- C10 witness: the theorem applied at `k = 3`. -/
theorem getTop_empty_array_witness :
    (0 : ℤ) < 3 ∧ getTop id (some fun _ => []) "t" [] 3 = (.ok ⟨"t", []⟩, 0) :=
  ⟨by decide, getTop_empty_array id (fun _ => []) "t" 3 (by decide)⟩

/-- Shifting the running `count` of the `_getIndex` scan by one shifts the
result and the cap by one. -/
theorem getIndexGo_succ (K : ℕ) (a : ℚ) (nodes : List Scored) (c : ℕ) :
    getIndexGo (K + 1) a nodes (c + 1) = getIndexGo K a nodes c + 1 := by
  induction nodes generalizing c with
  | nil =>
    simp only [getIndexGo, Nat.add_lt_add_iff_right]
    split <;> rfl
  | cons n rest ih =>
    simp only [getIndexGo, Nat.add_lt_add_iff_right]
    split
    · split <;> [rfl; exact ih (c + 1)]
    · rfl

/-- On a list no longer than the capacity, inserting at the position found by
the `_getIndex` scan is exactly `List.orderedInsert` for the descending
ordering: the new node goes in front of the first stored node whose score is
`≤` its own. -/
theorem insertIdx_getIndexGo (obj : Scored) :
    ∀ (nodes : List Scored) (K : ℕ), nodes.length ≤ K →
      nodes.insertIdx (getIndexGo K obj.alike nodes 0) obj =
        List.orderedInsert scoredGE obj nodes
  | [], K, _ => by
    rcases K with _ | K' <;> simp [getIndexGo]
  | n :: rest, K, hlen => by
    rcases K with _ | K'
    · simp at hlen
    · by_cases h : n.alike ≤ obj.alike
      · simp [getIndexGo, h, List.orderedInsert, scoredGE]
      · have hrec : getIndexGo (K' + 1) obj.alike (n :: rest) 0 =
            getIndexGo K' obj.alike rest 0 + 1 := by
          simpa [getIndexGo, h] using getIndexGo_succ K' obj.alike rest 0
        rw [hrec, List.insertIdx_succ_cons,
          insertIdx_getIndexGo obj rest K' (by simpa using Nat.le_of_succ_le_succ hlen)]
        simp [List.orderedInsert, scoredGE, h]

/-- `addNode` does not change the capacity. -/
theorem addNode_maxLength (ll : LinkedListInAlikeOrder) (obj : Scored) :
    (ll.addNode obj).maxLength = ll.maxLength := by
  rcases ll with ⟨nodes, K⟩
  rcases nodes with _ | ⟨n, rest⟩ <;>
    simp [LinkedListInAlikeOrder.addNode, LinkedListInAlikeOrder._audit,
      LinkedListInAlikeOrder._insertAtIndex, LinkedListInAlikeOrder._deleteLastNode,
      LinkedListInAlikeOrder._getIndex] <;> split <;> rfl

/-- `addNode` on a within-capacity state is "ordered insert, then truncate to
capacity": the net effect of `_getIndex` / `_insertAtIndex` / `_audit`. -/
theorem addNode_nodes_eq (ll : LinkedListInAlikeOrder) (obj : Scored)
    (hK : 1 ≤ ll.maxLength) (hlen : ll.nodes.length ≤ ll.maxLength) :
    (ll.addNode obj).nodes =
      (List.orderedInsert scoredGE obj ll.nodes).take ll.maxLength := by
  rcases ll with ⟨nodes, K⟩
  have hK' : 1 ≤ K := hK
  have hlen' : nodes.length ≤ K := hlen
  rcases nodes with _ | ⟨n, rest⟩
  · rcases K with _ | K''
    · omega
    · simp [LinkedListInAlikeOrder.addNode, LinkedListInAlikeOrder._audit]
  · have hlen'' : (n :: rest).length ≤ K := hlen'
    simp only [LinkedListInAlikeOrder.addNode, LinkedListInAlikeOrder._insertAtIndex,
      LinkedListInAlikeOrder._getIndex]
    rw [insertIdx_getIndexGo obj (n :: rest) K hlen'']
    simp only [LinkedListInAlikeOrder._audit, LinkedListInAlikeOrder._deleteLastNode]
    by_cases hfull : (n :: rest).length = K
    · rw [if_pos (by simp only [List.orderedInsert_length]; omega)]
      show (List.orderedInsert scoredGE obj (n :: rest)).dropLast = _
      rw [List.dropLast_eq_take, List.orderedInsert_length, hfull]
      simp
    · rw [if_neg (by simp only [List.orderedInsert_length]; omega)]
      show List.orderedInsert scoredGE obj (n :: rest) = _
      exact (List.take_of_length_le (by rw [List.orderedInsert_length]; omega)).symm

/-- Mapping scores out of an ordered insert of `Scored` values is the ordered
insert of the score. -/
theorem map_alike_orderedInsert (obj : Scored) (l : List Scored) :
    (List.orderedInsert scoredGE obj l).map Scored.alike =
      List.orderedInsert ratGE obj.alike (l.map Scored.alike) := by
  induction l with
  | nil => rfl
  | cons b rest ih =>
    by_cases h : b.alike ≤ obj.alike <;>
      simp [List.orderedInsert, scoredGE, ratGE, h, ih]

/-- Mapping scores out of the stable sort is the stable sort of the scores. -/
theorem map_alike_insertionSort (l : List Scored) :
    (List.insertionSort scoredGE l).map Scored.alike =
      List.insertionSort ratGE (l.map Scored.alike) := by
  induction l with
  | nil => rfl
  | cons b rest ih => simp [List.insertionSort, map_alike_orderedInsert, ih]

/-- Truncating to `K` before an ordered insert does not change the first `K`
elements of the result. -/
theorem take_orderedInsert_take (a : ℚ) :
    ∀ (L : List ℚ) (K : ℕ),
      (List.orderedInsert ratGE a (L.take K)).take K =
        (List.orderedInsert ratGE a L).take K
  | [], K => by simp
  | b :: L', K => by
    rcases K with _ | K'
    · simp
    · by_cases h : ratGE a b
      · simp only [List.take_succ_cons, List.orderedInsert, if_pos h]
        rcases K' with _ | m
        · simp
        · simp only [List.take_succ_cons, List.take_take]
          rw [Nat.min_eq_left (Nat.le_succ m)]
      · simp only [List.take_succ_cons, List.orderedInsert, if_neg h]
        rw [take_orderedInsert_take a L' K']

/-- The descending stable sort of the scores is invariant under permutation
of its input (scores compare antisymmetrically). -/
theorem insertionSort_ratGE_congr_perm {l l' : List ℚ} (h : l.Perm l') :
    List.insertionSort ratGE l = List.insertionSort ratGE l' :=
  List.eq_of_perm_of_sorted
    ((List.perm_insertionSort ratGE l).trans (h.trans (List.perm_insertionSort ratGE l').symm))
    (List.sorted_insertionSort ratGE l) (List.sorted_insertionSort ratGE l')

/-- Core streaming invariant: folding `addNode` over candidates, starting from
a state holding the top `K` of the scores `seen`, ends in a state holding the
top `K` of all scores. -/
theorem foldl_addNode_map_alike (K : ℕ) (hK : 1 ≤ K) :
    ∀ (l : List Scored) (s : LinkedListInAlikeOrder) (seen : List ℚ),
      s.maxLength = K →
      s.nodes.map Scored.alike = (List.insertionSort ratGE seen).take K →
      (l.foldl LinkedListInAlikeOrder.addNode s).nodes.map Scored.alike =
        (List.insertionSort ratGE (l.map Scored.alike ++ seen)).take K
  | [], s, seen, hmax, hs => by simpa using hs
  | x :: xs, s, seen, hmax, hs => by
    have hlen : s.nodes.length ≤ K := by
      have := congrArg List.length hs
      simp only [List.length_map, List.length_take] at this
      omega
    have hstep : (s.addNode x).nodes.map Scored.alike =
        (List.insertionSort ratGE (x.alike :: seen)).take K := by
      rw [addNode_nodes_eq s x (hmax ▸ hK) (hmax ▸ hlen), hmax, List.map_take,
        map_alike_orderedInsert, hs, take_orderedInsert_take]
      rfl
    have hmax' : (s.addNode x).maxLength = K := by rw [addNode_maxLength, hmax]
    have ih := foldl_addNode_map_alike K hK xs (s.addNode x) (x.alike :: seen) hmax' hstep
    rw [List.foldl_cons, ih]
    simp only [List.map_cons, List.cons_append]
    exact congrArg (List.take K) (insertionSort_ratGE_congr_perm List.perm_middle)

/-- C4: for every capacity `K ≥ 1` and every sequence of candidates fed to a
fresh `LinkedListInAlikeOrder` through `addNode`, the resulting state holds
candidates whose scores are the first `min(N, K)` entries of the descending
sort of all `N` input scores (the top `min(N, K)` by score), sorted
non-increasing, and the stored length is exactly `min(N, K)` (hence always
`≤ K`).  Since the input sequence `l` is universally quantified, every
intermediate state is covered by applying the theorem to the corresponding
prefix of the sequence. -/
theorem ranker_invariants (K : ℕ) (hK : 1 ≤ K) (l : List Scored) :
    ((l.foldl LinkedListInAlikeOrder.addNode (LinkedListInAlikeOrder.empty K)).nodes.map
        Scored.alike = (List.insertionSort ratGE (l.map Scored.alike)).take K) ∧
    List.Sorted ratGE
      ((l.foldl LinkedListInAlikeOrder.addNode (LinkedListInAlikeOrder.empty K)).nodes.map
        Scored.alike) ∧
    (l.foldl LinkedListInAlikeOrder.addNode (LinkedListInAlikeOrder.empty K)).nodes.length =
      min l.length K := by
  have h0 : (LinkedListInAlikeOrder.empty K).nodes.map Scored.alike =
      (List.insertionSort ratGE []).take K := by simp [LinkedListInAlikeOrder.empty]
  have h := foldl_addNode_map_alike K hK l (.empty K) [] rfl h0
  rw [List.append_nil] at h
  refine ⟨h, ?_, ?_⟩
  · rw [h]
    exact List.Pairwise.sublist (List.take_sublist _ _) (List.sorted_insertionSort ratGE _)
  · have hl := congrArg List.length h
    have hperm := (List.perm_insertionSort ratGE (l.map Scored.alike)).length_eq
    simp only [List.length_map, List.length_take] at hl hperm
    omega

/-- C4 witness: the invariants evaluated for capacity 2 and three
candidates. -/
theorem ranker_invariants_witness :
    1 ≤ 2 ∧
    ((([⟨"a", mkRat 1 2⟩, ⟨"b", 1⟩, ⟨"c", mkRat 3 4⟩] : List Scored).foldl
        LinkedListInAlikeOrder.addNode (LinkedListInAlikeOrder.empty 2)).nodes.map
        Scored.alike =
      (List.insertionSort ratGE (([⟨"a", mkRat 1 2⟩, ⟨"b", 1⟩, ⟨"c", mkRat 3 4⟩] : List Scored).map
        Scored.alike)).take 2) ∧
    List.Sorted ratGE
      ((([⟨"a", mkRat 1 2⟩, ⟨"b", 1⟩, ⟨"c", mkRat 3 4⟩] : List Scored).foldl
        LinkedListInAlikeOrder.addNode (LinkedListInAlikeOrder.empty 2)).nodes.map
        Scored.alike) ∧
    (([⟨"a", mkRat 1 2⟩, ⟨"b", 1⟩, ⟨"c", mkRat 3 4⟩] : List Scored).foldl
        LinkedListInAlikeOrder.addNode (LinkedListInAlikeOrder.empty 2)).nodes.length =
      min ([⟨"a", mkRat 1 2⟩, ⟨"b", 1⟩, ⟨"c", mkRat 3 4⟩] : List Scored).length 2 :=
  ⟨by decide, ranker_invariants 2 (by decide) [⟨"a", mkRat 1 2⟩, ⟨"b", 1⟩, ⟨"c", mkRat 3 4⟩]⟩

/-- C2 counterexample: a `LinkedListInAlikeOrder` of capacity 2 fed the
scores `[0.3, 0.9, 0.1, 0.9]` (as candidates `s1`..`s4`; `s2` carries the
first 0.9, `s4` the second) yields `[0.9, 0.9]` — but with the LATER-arriving
`s4` ranked ahead of the earlier `s2`, not the other way around as the claim
states. -/
theorem ranker_tie_earlier_not_ahead :
    (([⟨"s1", mkRat 3 10⟩, ⟨"s2", mkRat 9 10⟩, ⟨"s3", mkRat 1 10⟩, ⟨"s4", mkRat 9 10⟩] : List Scored).foldl
        LinkedListInAlikeOrder.addNode (LinkedListInAlikeOrder.empty 2)).getArray =
      [⟨"s4", mkRat 9 10⟩, ⟨"s2", mkRat 9 10⟩] ∧
    (([⟨"s1", mkRat 3 10⟩, ⟨"s2", mkRat 9 10⟩, ⟨"s3", mkRat 1 10⟩, ⟨"s4", mkRat 9 10⟩] : List Scored).foldl
        LinkedListInAlikeOrder.addNode (LinkedListInAlikeOrder.empty 2)).getArray ≠
      [⟨"s2", mkRat 9 10⟩, ⟨"s4", mkRat 9 10⟩] := by
  constructor
  · decide
  · decide

/-- Every already-stored node situated before the insertion position that
`_getIndex` computes has a strictly greater score than the incoming one. -/
theorem getIndexGo_take_gt (a : ℚ) :
    ∀ (nodes : List Scored) (K : ℕ), ∀ n ∈ nodes.take (getIndexGo K a nodes 0), a < n.alike
  | [], K => by simp
  | m :: rest, K => by
    rcases K with _ | K'
    · simp [getIndexGo]
    · by_cases h : m.alike ≤ a
      · simp [getIndexGo, h]
      · intro n hn
        have hidx : getIndexGo (K' + 1) a (m :: rest) 0 = getIndexGo K' a rest 0 + 1 := by
          simpa [getIndexGo, h] using getIndexGo_succ K' a rest 0
        rw [hidx, List.take_succ_cons, List.mem_cons] at hn
        rcases hn with hn | hn
        · exact hn ▸ not_le.mp h
        · exact getIndexGo_take_gt a rest K' n hn

/-- C2 as amended: ties are broken AGAINST insertion order.  `addNode` places
a new candidate in front of every stored candidate whose score is equal (or
lower) — every node kept ahead of it is strictly greater — so among equal
scores the later-arriving candidate ranks ahead; feeding scores
`[0.3, 0.9, 0.1, 0.9]` into a capacity-2 ranker yields `[0.9, 0.9]` with the
LATER-arriving 0.9 ranked first. -/
theorem ranker_ties_later_first (ll : LinkedListInAlikeOrder) (obj n : Scored)
    (hn : n ∈ ll.nodes.take (ll._getIndex obj.alike)) :
    obj.alike < n.alike ∧
    (([⟨"s1", mkRat 3 10⟩, ⟨"s2", mkRat 9 10⟩, ⟨"s3", mkRat 1 10⟩, ⟨"s4", mkRat 9 10⟩] : List Scored).foldl
        LinkedListInAlikeOrder.addNode (LinkedListInAlikeOrder.empty 2)).getArray =
      [⟨"s4", mkRat 9 10⟩, ⟨"s2", mkRat 9 10⟩] :=
  ⟨getIndexGo_take_gt obj.alike ll.nodes ll.maxLength n hn, by decide⟩

/-- C2 witness: the amended theorem applied to the state holding a single
score-1 node and an incoming score-1/2 candidate. -/
theorem ranker_ties_later_first_witness :
    ((⟨"x", 1⟩ : Scored) ∈
        (⟨[⟨"x", 1⟩], 2⟩ : LinkedListInAlikeOrder).nodes.take
          ((⟨[⟨"x", 1⟩], 2⟩ : LinkedListInAlikeOrder)._getIndex (⟨"y", mkRat 1 2⟩ : Scored).alike)) ∧
      ((⟨"y", mkRat 1 2⟩ : Scored).alike < (⟨"x", 1⟩ : Scored).alike ∧
        (([⟨"s1", mkRat 3 10⟩, ⟨"s2", mkRat 9 10⟩, ⟨"s3", mkRat 1 10⟩, ⟨"s4", mkRat 9 10⟩] : List Scored).foldl
            LinkedListInAlikeOrder.addNode (LinkedListInAlikeOrder.empty 2)).getArray =
          [⟨"s4", mkRat 9 10⟩, ⟨"s2", mkRat 9 10⟩]) :=
  ⟨by decide, ranker_ties_later_first ⟨[⟨"x", 1⟩], 2⟩ ⟨"y", mkRat 1 2⟩ ⟨"x", 1⟩ (by decide)⟩

unseal Rat.add Rat.mul Rat.inv Rat.sub in
/-- C6 counterexample: with a provider of dimensionality 2 and a cached entry
whose embedding has length 3, `cachedCompareSentenceToArray` does NOT fail:
it silently computes a score over the reference embedding's index range
(the source performs no dimensionality validation anywhere). -/
theorem cached_wrong_length_embedding_scores_silently :
    cachedCompareSentenceToArray id (some fun _ => [1, 0]) "a"
        [JSItem.entry "b" [1, 0, 0]] =
      (.ok ⟨"a", [⟨"b", 1⟩]⟩, 1) := by rfl

/-- C6 as amended: a cache entry with an empty or absent `text` field makes
both `cachedCompareSentenceToArray` and `cachedArrayInOrder` fail with the
`InvalidCacheEntry` error before any scoring (no provider call); an embedding
whose length differs from the provider's dimensionality is NOT detected — the
call silently produces a score for it. -/
theorem cached_ops_text_validated_length_not (msqrt : ℚ → ℚ)
    (model : Option (String → List ℚ)) (sentence : String) (cachedArray : List JSItem)
    (h : ∃ item ∈ cachedArray, lacksSentenceTwo item) :
    cachedCompareSentenceToArray msqrt model sentence cachedArray =
        (.error invalidCacheEntryError, 0) ∧
      cachedArrayInOrder msqrt model sentence cachedArray =
        (.error invalidCacheEntryError, 0) := by
  have hany : cachedArray.any lacksSentenceTwo = true := List.any_eq_true.mpr h
  exact ⟨by simp [cachedCompareSentenceToArray, hany],
    by simp [cachedArrayInOrder, hany]⟩

/-- C6 witness: the amended theorem applied to a cached array whose entry has
an empty `sentenceTwo`. -/
theorem cached_ops_text_validated_length_not_witness :
    (∃ item ∈ [JSItem.entry "" [1]], lacksSentenceTwo item) ∧
      (cachedCompareSentenceToArray id (some fun _ => [1]) "s" [JSItem.entry "" [1]] =
          (.error invalidCacheEntryError, 0) ∧
        cachedArrayInOrder id (some fun _ => [1]) "s" [JSItem.entry "" [1]] =
          (.error invalidCacheEntryError, 0)) :=
  ⟨by decide, cached_ops_text_validated_length_not id (some fun _ => [1]) "s"
    [JSItem.entry "" [1]] (by decide)⟩

/-! ## A store-passing model of array mutation for the frame claim

`compareSentenceToArray` receives a reference to the caller's array and
rebinds it to a fresh copy (`array = [...array]`, line 204) before the loop
overwrites elements (`array[i] = { sentenceTwo, alike }`, line 217).  To state
that the CALLER's array object is not mutated, arrays are modelled as slots in
an explicit store (a list of arrays addressed by index, standing for the
JavaScript heap) and the operation threads the store. -/

/-- One element of a (possibly mutated) array: an input item, or the
`{ sentenceTwo, alike }` object the loop writes over it. -/
inductive MutSlot where
  | item (it : JSItem)
  | scored (sc : Scored)
deriving DecidableEq, Repr

/-- The store: arrays addressed by their index (object identity). -/
abbrev Store := List (List MutSlot)

/-- Reading `array[i]` inside the loop.  On the source's control flow the slot
read at iteration `i` has not been overwritten yet (writes hit exactly the
slots `< i`), so it is always an input item; the `scored` branch is
unreachable. -/
def readLoopItem : MutSlot → JSItem
  | .item it => it
  | .scored sc => .str sc.sentenceTwo

/-- The loop of `compareSentenceToArray` (lines 205-218) acting on the store:
iteration `i` reads `array[i]` of the array `copyId`, classifies it, and
writes `{ sentenceTwo, alike }` back to slot `i` of that same array.  `fuel`
is the number of remaining iterations (`array.length - i`). -/
def compareMutLoop (msqrt : ℚ → ℚ) (model : Option (String → List ℚ))
    (doesCache2Exist : Bool) (sentence : String) :
    ℕ → ℕ → ℕ → Option (List ℚ) → Store → Store × (Except JsError Unit × ℕ)
  | 0, _, _, _, store => (store, (.ok (), 0))
  | fuel + 1, i, copyId, cache, store =>
    let it := readLoopItem ((store.getD copyId []).getD i (.item (.str "")))
    match classify msqrt model sentence (itemText it) cache (i != 0)
        (itemEmbedding it) doesCache2Exist with
    | (.error e, n) => (store, (.error e, n))
    | (.ok r, n) =>
      let cache2 := if i = 0 then some r.embedding1Cache else cache
      let store2 := store.set copyId
        ((store.getD copyId []).set i (.scored ⟨r.sentenceTwo, r.alike⟩))
      match compareMutLoop msqrt model doesCache2Exist sentence fuel (i + 1) copyId
          cache2 store2 with
      | (store3, (res, m)) => (store3, (res, n + m))

/-- Reading the fully overwritten copy at the end of the loop (every slot is a
`scored` object on the success path; the `item` branch is unreachable). -/
def collectScored (slots : List MutSlot) : List Scored :=
  slots.map fun s =>
    match s with
    | .scored sc => sc
    | .item it => ⟨itemText it, 0⟩

/-- `compareSentenceToArray` (lines 194-224) on the store model: after the
guard, allocate the copy (`array = [...array]` — a fresh array at index
`store.length` holding the same elements), run the loop on the copy, and
return its contents.  The caller's array `arrId` is never written. -/
def compareSentenceToArrayMut (msqrt : ℚ → ℚ) (model : Option (String → List ℚ))
    (sentence : String) (store : Store) (arrId : ℕ) (doesCache2Exist : Bool) :
    Store × (Except JsError SentenceArrayResult × ℕ) :=
  if !doesCache2Exist && model.isNone then
    (store, (.error modelNotLoadedError, 0))
  else
    let original := store.getD arrId []
    let copyId := store.length
    let store1 := store ++ [original]
    match compareMutLoop msqrt model doesCache2Exist sentence original.length 0 copyId
        none store1 with
    | (store2, (.error e, n)) => (store2, (.error e, n))
    | (store2, (.ok _, n)) =>
      (store2, (.ok ⟨sentence, collectScored (store2.getD copyId [])⟩, n))

/-- The loop writes only to the array `copyId`: every other store slot is
untouched. -/
theorem compareMutLoop_frame (msqrt : ℚ → ℚ) (model : Option (String → List ℚ))
    (doesCache2Exist : Bool) (sentence : String) :
    ∀ (fuel i copyId : ℕ) (cache : Option (List ℚ)) (store : Store) (j : ℕ),
      j ≠ copyId →
      (compareMutLoop msqrt model doesCache2Exist sentence fuel i copyId cache
        store).1[j]? = store[j]?
  | 0, _, _, _, _, _, _ => rfl
  | fuel + 1, i, copyId, cache, store, j, hj => by
    simp only [compareMutLoop]
    rcases classify msqrt model sentence
        (itemText (readLoopItem ((store.getD copyId []).getD i (.item (.str "")))))
        cache (i != 0)
        (itemEmbedding (readLoopItem ((store.getD copyId []).getD i (.item (.str "")))))
        doesCache2Exist with ⟨e | r, n⟩
    · rfl
    · simp only []
      rcases hrec : compareMutLoop msqrt model doesCache2Exist sentence fuel (i + 1) copyId
          (if i = 0 then some r.embedding1Cache else cache)
          (store.set copyId
            ((store.getD copyId []).set i (.scored ⟨r.sentenceTwo, r.alike⟩))) with ⟨store3, res, m⟩
      have hframe := compareMutLoop_frame msqrt model doesCache2Exist sentence fuel (i + 1)
        copyId (if i = 0 then some r.embedding1Cache else cache)
        (store.set copyId
          ((store.getD copyId []).set i (.scored ⟨r.sentenceTwo, r.alike⟩))) j hj
      rw [hrec] at hframe
      simpa [hframe] using List.getElem?_set_ne (Ne.symm hj)

/-- C7: `compareSentenceToArray` does not mutate the caller-supplied array:
for every store, every valid array index `arrId`, and every model, sentence
and cache flag, the caller's slot — its identity as an address and its entire
contents — is unchanged in the store the call leaves behind (the source
copies the array before its loop writes, and all writes target the copy). -/
theorem compareSentenceToArray_no_mutation (msqrt : ℚ → ℚ)
    (model : Option (String → List ℚ)) (sentence : String) (store : Store)
    (arrId : ℕ) (doesCache2Exist : Bool) (harr : arrId < store.length) :
    (compareSentenceToArrayMut msqrt model sentence store arrId doesCache2Exist).1[arrId]? =
      store[arrId]? := by
  simp only [compareSentenceToArrayMut]
  by_cases hguard : (!doesCache2Exist && model.isNone) = true
  · rw [if_pos hguard]
  · rw [if_neg hguard]
    have hframe := compareMutLoop_frame msqrt model doesCache2Exist sentence
      (store.getD arrId []).length 0 store.length none (store ++ [store.getD arrId []])
      arrId (by omega)
    rcases hrec : compareMutLoop msqrt model doesCache2Exist sentence
        (store.getD arrId []).length 0 store.length none
        (store ++ [store.getD arrId []]) with ⟨store2, res, n⟩
    rw [hrec] at hframe
    rw [List.getElem?_append_left harr] at hframe
    rcases res with e | v <;> exact hframe

/-- C7 witness: a one-array store is unchanged at its only index. -/
theorem compareSentenceToArray_no_mutation_witness :
    0 < ([[MutSlot.item (.str "a")]] : Store).length ∧
      (compareSentenceToArrayMut id (some fun _ => [1]) "s"
          [[MutSlot.item (.str "a")]] 0 false).1[0]? =
        ([[MutSlot.item (.str "a")]] : Store)[0]? :=
  ⟨by decide, compareSentenceToArray_no_mutation id (some fun _ => [1]) "s"
    [[MutSlot.item (.str "a")]] 0 false (by decide)⟩

/-- With a loaded model and `doesCache2Exist = false`, the comparison loop
never fails, and it scores exactly one candidate per input item.  The
left-hand cache is `none` only on the first iteration (as at every call
site). -/
theorem compareLoop_ok (msqrt : ℚ → ℚ) (f : String → List ℚ) (sentence : String) :
    ∀ (items : List JSItem) (i : ℕ) (cache : Option (List ℚ)),
      (i ≠ 0 → cache.isSome = true) →
      ∃ res n,
        compareSentenceToArrayLoop msqrt (some f) false sentence items i cache =
            (.ok res, n) ∧
          res.length = items.length
  | [], _, _, _ => ⟨[], 0, rfl, rfl⟩
  | item :: rest, i, cache, hc => by
    by_cases hi : i = 0
    · subst hi
      obtain ⟨res, n, heq, hlen⟩ :=
        compareLoop_ok msqrt f sentence rest 1 (some (f sentence)) (fun _ => rfl)
      refine ⟨⟨itemText item,
        calculateCosineSimilarity msqrt (f sentence) (f (itemText item))⟩ :: res, 2 + n,
        ?_, by simp [hlen]⟩
      simp [compareSentenceToArrayLoop, classify, resolveEmbedding, heq]
    · obtain ⟨e, he⟩ := Option.isSome_iff_exists.mp (hc hi)
      subst he
      obtain ⟨res, n, heq, hlen⟩ :=
        compareLoop_ok msqrt f sentence rest (i + 1) (some e) (fun _ => rfl)
      refine ⟨⟨itemText item,
        calculateCosineSimilarity msqrt e (f (itemText item))⟩ :: res, 1 + n,
        ?_, by simp [hlen]⟩
      simp [compareSentenceToArrayLoop, classify, resolveEmbedding, heq, hi]

/-- Stability of the descending stable sort: the candidates carrying any
fixed score appear in the sorted output in exactly their original relative
order. -/
theorem filter_insertionSort_alike (l : List Scored) (q : ℚ) :
    (List.insertionSort scoredGE l).filter (fun p => p.alike = q) =
      l.filter (fun p => p.alike = q) := by
  have hpw : (l.filter (fun p => p.alike = q)).Pairwise scoredGE := by
    refine List.pairwise_of_forall_mem_list ?_
    intro a ha b hb
    have ha2 : a.alike = q := by simpa using (List.mem_filter.mp ha).2
    have hb2 : b.alike = q := by simpa using (List.mem_filter.mp hb).2
    show b.alike ≤ a.alike
    rw [ha2, hb2]
  have hsub : List.Sublist (l.filter (fun p => p.alike = q))
      (List.insertionSort scoredGE l) :=
    List.sublist_insertionSort hpw (List.filter_sublist l)
  have hself : (l.filter (fun p => p.alike = q)).filter (fun p => decide (p.alike = q)) =
      l.filter (fun p => p.alike = q) :=
    List.filter_eq_self.mpr (fun a ha => (List.mem_filter.mp ha).2)
  have hsub2 := hsub.filter (fun p => decide (p.alike = q))
  rw [hself] at hsub2
  have hperm : ((List.insertionSort scoredGE l).filter (fun p => p.alike = q)).Perm
      (l.filter (fun p => p.alike = q)) :=
    (List.perm_insertionSort scoredGE l).filter _
  exact (hsub2.eq_of_length hperm.length_eq.symm).symm

/-- C5: with a loaded model, `arrayInOrder` returns a permutation of the
`compareSentenceToArray` results, sorted descending by `alike`, and candidates
with equal scores keep their original relative order (the ECMAScript sort is
stable). -/
theorem arrayInOrder_stable_sorted_permutation (msqrt : ℚ → ℚ) (f : String → List ℚ)
    (sentence : String) (array : List JSItem) :
    ∃ cr sr : SentenceArrayResult,
      (compareSentenceToArray msqrt (some f) sentence array false).1 = .ok cr ∧
      (arrayInOrder msqrt (some f) sentence array).1 = .ok sr ∧
      sr.array.Perm cr.array ∧
      List.Sorted scoredGE sr.array ∧
      ∀ q : ℚ, sr.array.filter (fun p => p.alike = q) =
        cr.array.filter (fun p => p.alike = q) := by
  obtain ⟨res, n, heq, hlen⟩ :=
    compareLoop_ok msqrt f sentence array 0 none (by simp)
  refine ⟨⟨sentence, res⟩, ⟨sentence, jsSortByAlikeDescending res⟩, ?_, ?_, ?_, ?_, ?_⟩
  · simp [compareSentenceToArray, heq]
  · simp [arrayInOrder, compareSentenceToArray, heq]
  · exact List.perm_insertionSort scoredGE res
  · exact List.sorted_insertionSort scoredGE res
  · intro q
    exact filter_insertionSort_alike res q

/-- The streaming loop of `getTop` performs exactly the `classify` calls of
the `compareSentenceToArray` loop (on the same plain-string candidates, same
cache threading) and folds the scored results into the ranker. -/
theorem getTopLoop_eq_compareLoop (msqrt : ℚ → ℚ) (model : Option (String → List ℚ))
    (sentence : String) :
    ∀ (items : List String) (i : ℕ) (cache : Option (List ℚ))
      (ll : LinkedListInAlikeOrder),
      getTopLoop msqrt model sentence items i cache ll =
        (match compareSentenceToArrayLoop msqrt model false sentence
            (items.map JSItem.str) i cache with
         | (.error e, n) => (.error e, n)
         | (.ok res, n) => (.ok (res.foldl LinkedListInAlikeOrder.addNode ll), n))
  | [], _, _, _ => rfl
  | s :: rest, i, cache, ll => by
    simp only [getTopLoop, List.map_cons, compareSentenceToArrayLoop, itemText, itemEmbedding]
    rcases classify msqrt model sentence s cache (i != 0) none false with ⟨e | r, n⟩
    · rfl
    · simp only [getTopLoop_eq_compareLoop msqrt model sentence rest]
      rcases compareSentenceToArrayLoop msqrt model false sentence (rest.map JSItem.str)
          (i + 1) (if i = 0 then some r.embedding1Cache else cache) with ⟨e2 | res2, m⟩
      · rfl
      · rfl

/-- Membership in an `insertIdx` result comes from the new element or the
original list. -/
theorem mem_insertIdx_sub {α : Type} :
    ∀ (idx : ℕ) (obj x : α) (l : List α), x ∈ l.insertIdx idx obj → x = obj ∨ x ∈ l
  | 0, _, _, _, hx => by
    rw [List.insertIdx_zero, List.mem_cons] at hx
    exact hx
  | _ + 1, _, _, [], hx => by simp at hx
  | idx + 1, obj, x, b :: l, hx => by
    rw [List.insertIdx_succ_cons, List.mem_cons] at hx
    rcases hx with hx | hx
    · exact .inr (hx ▸ List.mem_cons_self b l)
    · rcases mem_insertIdx_sub idx obj x l hx with h | h
      · exact .inl h
      · exact .inr (List.mem_cons_of_mem b h)

/-- Every node held after an `addNode` is the inserted candidate or one of the
previously held nodes. -/
theorem mem_addNode (ll : LinkedListInAlikeOrder) (obj x : Scored)
    (hx : x ∈ (ll.addNode obj).nodes) : x = obj ∨ x ∈ ll.nodes := by
  rcases ll with ⟨nodes, K⟩
  rcases nodes with _ | ⟨n, rest⟩
  · simp only [LinkedListInAlikeOrder.addNode, LinkedListInAlikeOrder._audit,
      LinkedListInAlikeOrder._deleteLastNode] at hx
    split at hx
    · simp at hx
    · simp at hx
      exact .inl hx
  · simp only [LinkedListInAlikeOrder.addNode, LinkedListInAlikeOrder._insertAtIndex,
      LinkedListInAlikeOrder._audit, LinkedListInAlikeOrder._deleteLastNode,
      LinkedListInAlikeOrder._getIndex] at hx
    split at hx
    · exact mem_insertIdx_sub _ obj x (n :: rest)
        ((List.dropLast_sublist _).subset hx)
    · exact mem_insertIdx_sub _ obj x (n :: rest) hx

/-- Every node held after folding a candidate stream into the ranker came from
the initial state or the stream. -/
theorem foldl_addNode_mem :
    ∀ (l : List Scored) (s : LinkedListInAlikeOrder) (x : Scored),
      x ∈ (l.foldl LinkedListInAlikeOrder.addNode s).nodes → x ∈ s.nodes ∨ x ∈ l
  | [], _, _, hx => .inl hx
  | y :: l, s, x, hx => by
    rcases foldl_addNode_mem l (s.addNode y) x hx with h | h
    · rcases mem_addNode s y x h with h2 | h2
      · exact .inr (h2 ▸ List.mem_cons_self y l)
      · exact .inl h2
    · exact .inr (List.mem_cons_of_mem y h)

/-- When all scores in a candidate pool are distinct, two lists of candidates
drawn from the pool with the same score projection coincide. -/
theorem eq_of_map_alike_eq (pool : List Scored)
    (hnd : (pool.map Scored.alike).Nodup) :
    ∀ (xs ys : List Scored), xs.map Scored.alike = ys.map Scored.alike →
      (∀ x ∈ xs, x ∈ pool) → (∀ y ∈ ys, y ∈ pool) → xs = ys
  | [], [], _, _, _ => rfl
  | [], _ :: _, h, _, _ => by simp at h
  | _ :: _, [], h, _, _ => by simp at h
  | x :: xs, y :: ys, h, hx, hy => by
    simp only [List.map_cons, List.cons.injEq] at h
    have hxy : x = y :=
      List.inj_on_of_nodup_map hnd (hx x (List.mem_cons_self x xs))
        (hy y (List.mem_cons_self y ys)) h.1
    rw [hxy, eq_of_map_alike_eq pool hnd xs ys h.2
      (fun a ha => hx a (List.mem_cons_of_mem x ha))
      (fun a ha => hy a (List.mem_cons_of_mem y ha))]

unseal Rat.add Rat.mul Rat.inv Rat.sub in
/-- C3 counterexample: with a provider mapping every sentence to the same
vector (so that both candidates score 1), `getTop("t", ["a", "b"], 2)` returns
`[b, a]` — the streaming ranker breaks the tie toward the later arrival —
while the first 2 elements of `arrayInOrder("t", ["a", "b"])` are `[a, b]`
(its sort is stable), so the claimed equality fails at this input. -/
theorem getTop_ties_differ_from_arrayInOrder :
    (getTop id (some fun _ => [1]) "t" ["a", "b"] 2).1 =
        .ok ⟨"t", [⟨"b", 1⟩, ⟨"a", 1⟩]⟩ ∧
      (arrayInOrder id (some fun _ => [1]) "t" (["a", "b"].map JSItem.str)).1 =
        .ok ⟨"t", [⟨"a", 1⟩, ⟨"b", 1⟩]⟩ ∧
      ([⟨"b", 1⟩, ⟨"a", 1⟩] : List Scored) ≠
        ([⟨"a", 1⟩, ⟨"b", 1⟩] : List Scored).take 2 :=
  ⟨rfl, rfl, by decide⟩

/-- C3 as amended: with a loaded model, `0 < k`, and PAIRWISE-DISTINCT
candidate scores, the result array of `getTop(text, items, k)` equals the
first `min(k, items.length)` elements of the `arrayInOrder(text, items)`
result array (in particular its first `k` elements when `k ≤ items.length`);
and — with no distinctness assumption — for `k > items.length` the call
returns exactly `items.length` results.  (The original claim fails on tied
scores, see the counterexample.) -/
theorem getTop_refines_arrayInOrder (msqrt : ℚ → ℚ) (f : String → List ℚ)
    (sentence : String) (items : List String) (k : ℤ) (hk : 0 < k) :
    ∃ sr rt : SentenceArrayResult,
      (arrayInOrder msqrt (some f) sentence (items.map JSItem.str)).1 = .ok sr ∧
      (getTop msqrt (some f) sentence items k).1 = .ok rt ∧
      ((sr.array.map Scored.alike).Nodup → k.toNat ≤ items.length →
        rt.array = sr.array.take k.toNat) ∧
      (items.length < k.toNat → rt.array.length = items.length) := by
  obtain ⟨res, n, heq, hlen⟩ :=
    compareLoop_ok msqrt f sentence (items.map JSItem.str) 0 none (by simp)
  have hlen' : res.length = items.length := by simpa using hlen
  have hloop : getTopLoop msqrt (some f) sentence items 0 none
      (.empty (min k.toNat items.length)) =
      (.ok (res.foldl LinkedListInAlikeOrder.addNode
        (.empty (min k.toNat items.length))), n) := by
    rw [getTopLoop_eq_compareLoop, heq]
  refine ⟨⟨sentence, jsSortByAlikeDescending res⟩,
    ⟨sentence, (res.foldl LinkedListInAlikeOrder.addNode
      (.empty (min k.toNat items.length))).nodes⟩, ?_, ?_, ?_, ?_⟩
  · simp [arrayInOrder, compareSentenceToArray, heq]
  · simp [getTop, not_le.mpr hk, hloop, LinkedListInAlikeOrder.getArray]
  · intro hnd hkle
    have hndres : (res.map Scored.alike).Nodup :=
      (((List.perm_insertionSort scoredGE res).map Scored.alike).nodup_iff).mp hnd
    have hclamp : min k.toNat items.length = k.toNat := Nat.min_eq_left hkle
    have hK1 : 1 ≤ k.toNat := by omega
    rw [hclamp]
    have hfold := foldl_addNode_map_alike k.toNat hK1 res
      (.empty k.toNat) [] rfl (by simp [LinkedListInAlikeOrder.empty])
    rw [List.append_nil] at hfold
    have hmapr : ((jsSortByAlikeDescending res).take k.toNat).map Scored.alike =
        (List.insertionSort ratGE (res.map Scored.alike)).take k.toNat := by
      rw [List.map_take]
      simp only [jsSortByAlikeDescending]
      rw [map_alike_insertionSort]
    refine eq_of_map_alike_eq res hndres _ _ (hfold.trans hmapr.symm) ?_ ?_
    · intro x hx
      refine (foldl_addNode_mem res _ x hx).resolve_left ?_
      simp [LinkedListInAlikeOrder.empty]
    · intro y hy
      exact (List.perm_insertionSort scoredGE res).subset
        ((List.take_sublist _ _).subset hy)
  · intro hlt
    have hclamp : min k.toNat items.length = items.length :=
      Nat.min_eq_right (by omega)
    rw [hclamp]
    show ((res.foldl LinkedListInAlikeOrder.addNode
      (.empty items.length)).nodes).length = items.length
    rcases Nat.eq_zero_or_pos items.length with h0 | hpos
    · have hres : res = [] := List.length_eq_zero.mp (by omega)
      subst hres
      simp [LinkedListInAlikeOrder.empty, h0]
    · have hfold := foldl_addNode_map_alike items.length hpos res
        (.empty items.length) [] rfl (by simp [LinkedListInAlikeOrder.empty])
      rw [List.append_nil] at hfold
      have hl := congrArg List.length hfold
      have hpm := (List.perm_insertionSort ratGE (res.map Scored.alike)).length_eq
      simp only [List.length_map, List.length_take] at hl hpm
      omega

/-- C3 witness: the amended theorem applied at a concrete loaded model. -/
theorem getTop_refines_arrayInOrder_witness :
    (0 : ℤ) < 1 ∧
      ∃ sr rt : SentenceArrayResult,
        (arrayInOrder id (some fun _ => [1]) "t" (["a"].map JSItem.str)).1 = .ok sr ∧
        (getTop id (some fun _ => [1]) "t" ["a"] 1).1 = .ok rt ∧
        ((sr.array.map Scored.alike).Nodup → (1 : ℤ).toNat ≤ ["a"].length →
          rt.array = sr.array.take (1 : ℤ).toNat) ∧
        (["a"].length < (1 : ℤ).toNat → rt.array.length = ["a"].length) :=
  ⟨by decide, getTop_refines_arrayInOrder id (fun _ => [1]) "t" ["a"] 1 (by decide)⟩
